import Mathlib

/-!
Shallow embedding of the `aksha-md-editor` React markdown editor component
(repository `Nil369/aksha-md-editor`) and proofs of the specified behaviour.

The embedding covers:
* the view-mode / theme-mode types (`src/types.ts`);
* the host container component `MarkdownEditor`
  (`src/components/MarkdownEditor.tsx`): controlled vs. uncontrolled value
  state, the `handleChange` callback, the pane layout per view mode, and the
  split-ratio resize logic;
* the `Preview` component's unified markdown pipeline and its try/catch
  (`src/components/Preview.tsx`);
* the Monaco-based `Editor` component's toolbar string manipulations
  (`src/components/Editor.tsx`): `applyWrap`, `toggleList`, `toggleTaskList`,
  and the debounced `onChangeHandler`;
* the theme resolution helpers (`src/hooks/useTheme.ts` and the inline
  resolvers in the components).

Documents are modelled as `List Char`, Monaco line contents as terminator-free
`List Char` lines, timers as explicit deadlines over `Nat` milliseconds, and
the third-party unified plugins as abstract stage functions that may fail
(`Except String`).
-/

namespace AkshaMd

/-! ## Types (`src/types.ts`) -/

/-- `ViewMode` from `src/types.ts`: `"edit" | "preview" | "split"`. -/
inductive ViewMode where
  | edit
  | preview
  | split
deriving DecidableEq, Repr

/-- `ThemeMode` from `src/types.ts`: `"auto" | "light" | "dark"`. -/
inductive ThemeMode where
  | auto
  | light
  | dark
deriving DecidableEq, Repr

/-- The resolved theme is never `"auto"`: it is one of `"light" | "dark"`. -/
inductive ResolvedTheme where
  | light
  | dark
deriving DecidableEq, Repr

/-! ## Pane layout (`MarkdownEditor.tsx` render) -/

/-- The editor pane is rendered under the guard
`(viewMode === "edit" || viewMode === "split")` in the `MarkdownEditor`
render. -/
def showEditorPane (m : ViewMode) : Bool :=
  m = ViewMode.edit || m = ViewMode.split

/-- The preview pane is rendered under the guard
`(viewMode === "preview" || viewMode === "split")` in the `MarkdownEditor`
render. -/
def showPreviewPane (m : ViewMode) : Bool :=
  m = ViewMode.preview || m = ViewMode.split

/-- Number of panes displayed in a given view mode. -/
def paneCount (m : ViewMode) : Nat :=
  (if showEditorPane m then 1 else 0) + (if showPreviewPane m then 1 else 0)

/-! ## Theme resolution (`useTheme.ts`, `MarkdownEditor.tsx`) -/

/-- The browser environment as the theme code observes it: whether `window`
exists, whether `window.matchMedia` exists, and whether the
`(prefers-color-scheme: dark)` media query matches. -/
structure BrowserEnv where
  hasWindow : Bool
  hasMatchMedia : Bool
  mediaDarkMatches : Bool
deriving DecidableEq, Repr

/-- `getSystemTheme` from `src/hooks/useTheme.ts`: `"light"` when there is no
`window` or no `window.matchMedia`, otherwise `"dark"` iff the
`(prefers-color-scheme: dark)` query matches. -/
def getSystemTheme (env : BrowserEnv) : ResolvedTheme :=
  if !env.hasWindow || !env.hasMatchMedia then ResolvedTheme.light
  else if env.mediaDarkMatches then ResolvedTheme.dark
  else ResolvedTheme.light

/-- `resolvedTheme` from `useTheme`: the preference itself when it is not
`"auto"`, otherwise the system theme. -/
def useThemeResolved (theme : ThemeMode) (env : BrowserEnv) : ResolvedTheme :=
  match theme with
  | ThemeMode.auto => getSystemTheme env
  | ThemeMode.light => ResolvedTheme.light
  | ThemeMode.dark => ResolvedTheme.dark

/-- The inline `resolvedTheme` memo in `MarkdownEditor.tsx` (also in
`Editor.tsx` and `Preview.tsx`): non-`auto` preferences resolve to themselves;
`auto` resolves to `"light"` when `window` is undefined and otherwise follows
the media query. -/
def markdownEditorResolvedTheme (theme : ThemeMode) (env : BrowserEnv) :
    ResolvedTheme :=
  match theme with
  | ThemeMode.light => ResolvedTheme.light
  | ThemeMode.dark => ResolvedTheme.dark
  | ThemeMode.auto =>
      if !env.hasWindow then ResolvedTheme.light
      else if env.mediaDarkMatches then ResolvedTheme.dark
      else ResolvedTheme.light

/-! ## Split ratio (`MarkdownEditor.tsx` resize effect) -/

/-- `useState(50)`: the split ratio starts at `50`. -/
def initialSplitRatio : ℚ := 50

/-- One mouse-move update of the split ratio: the newly computed ratio `q` is
assigned only when `20 <= q && q <= 80` (the clamp in the resize effect),
otherwise the state keeps its previous value `r`. -/
def splitRatioStep (r q : ℚ) : ℚ :=
  if 20 ≤ q ∧ q ≤ 80 then q else r

/-- Reachable values of the `splitRatio` state: the initial value, closed
under mouse-move updates with arbitrary proposed ratios. -/
inductive SplitRatioReachable : ℚ → Prop where
  | init : SplitRatioReachable initialSplitRatio
  | step (r q : ℚ) : SplitRatioReachable r → SplitRatioReachable (splitRatioStep r q)

/-- Editor pane width in split mode: `` `${splitRatio}%` ``. -/
def editorPaneWidth (r : ℚ) : ℚ := r

/-- Preview pane width in split mode: `` `${100 - splitRatio}%` ``. -/
def previewPaneWidth (r : ℚ) : ℚ := 100 - r

/-! ## MarkdownEditor value state (`MarkdownEditor.tsx`) -/

/-- The props of `MarkdownEditor` that govern value ownership. `value` is
`Option String` because the prop may be omitted (`undefined`); `defaultValue`
is the prop after its default has been applied; `hasOnChange` records whether
an `onChange` callback was supplied. -/
structure MarkdownEditorProps where
  value : Option String
  defaultValue : String
  hasOnChange : Bool
deriving DecidableEq, Repr

/-- `const isControlled = typeof value === "string"`. -/
def isControlled (p : MarkdownEditorProps) : Bool :=
  p.value.isSome

/-- The internal value state of `MarkdownEditor`
(`useState(defaultValue)`). -/
structure MarkdownEditorState where
  internalValue : String
deriving DecidableEq, Repr

/-- Initial state: `useState(defaultValue)` initialises the internal value
from the `defaultValue` prop. -/
def initMarkdownEditorState (p : MarkdownEditorProps) : MarkdownEditorState :=
  ⟨p.defaultValue⟩

/-- `const currentValue = isControlled ? (value as string) : internalValue`:
the text handed to the editor pane for display. -/
def currentValue (p : MarkdownEditorProps) (s : MarkdownEditorState) : String :=
  match p.value with
  | some v => v
  | none => s.internalValue

/-- `handleChange` from `MarkdownEditor.tsx`: when uncontrolled it stores the
new text in the internal state (`setInternalValue(next)`); it then invokes
`onChange?.(next)`. The second component is the list of values passed to the
`onChange` prop during this call. -/
def handleChange (p : MarkdownEditorProps) (s : MarkdownEditorState)
    (next : String) : MarkdownEditorState × List String :=
  ((if isControlled p then s else ⟨next⟩),
   if p.hasOnChange then [next] else [])

/-! ## Preview pipeline (`Preview.tsx`) -/

/-- The third-party unified pipeline, as an abstract collection of stage
functions over an mdast type `M` and a hast type `H`. Each stage may throw
(`Except String`, the error carrying its `String(error)` rendering), matching
the single `try`/`catch` around the whole chain. -/
structure UnifiedPipeline (M H : Type) where
  remarkParse : String → Except String M
  remarkGfm : M → Except String M
  remarkMath : M → Except String M
  remarkRehype : M → Except String H
  rehypeKatex : H → Except String H
  rehypeHighlight : H → Except String H
  rehypeStringify : H → Except String String

/-- The fixed `unified().use(...)...process(content)` chain from
`Preview.tsx`: parse, GFM, math, conversion to HTML, KaTeX, syntax
highlighting, serialization to a string — in exactly this order. -/
def runUnified {M H : Type} (P : UnifiedPipeline M H) (content : String) :
    Except String String :=
  P.remarkParse content >>= P.remarkGfm >>= P.remarkMath >>= P.remarkRehype
    >>= P.rehypeKatex >>= P.rehypeHighlight >>= P.rehypeStringify

/-- The error markup built in the `catch` branch of `Preview.tsx`, with the
stringified error interpolated. -/
def previewErrorHtml (e : String) : String :=
  "<div style=\"color:#ef4444;padding:12px;border:1px solid #fecdd3;border-radius:8px;background:#fef2f2;\">Preview rendering error: "
    ++ e ++ "</div>"

/-- Outcome of one `render` attempt in `Preview.tsx`: the `html` state and the
`isProcessing` flag after the attempt completes. -/
structure PreviewOutcome where
  html : String
  isProcessing : Bool
deriving DecidableEq, Repr

/-- The `render` function of `Preview.tsx`: empty content resets the html;
otherwise the unified pipeline runs inside `try`/`catch` — on success the html
is the pipeline's string output, on an exception it is the error markup. Every
branch ends with `setIsProcessing(false)`. -/
def previewRender {M H : Type} (P : UnifiedPipeline M H) (content : String) :
    PreviewOutcome :=
  if content = "" then ⟨"", false⟩
  else
    match runUnified P content with
    | Except.ok s => ⟨s, false⟩
    | Except.error e => ⟨previewErrorHtml e, false⟩

/-! ## Editor document model and `applyWrap` (`Editor.tsx`)

Documents are flattened to `List Char`; a Monaco selection is the pair of
character offsets `i ≤ j` into the document. -/

/-- `model.getValueInRange(selection)`: the slice of the document between
offsets `i` and `j`. -/
def getValueInRange (doc : List Char) (i j : Nat) : List Char :=
  (doc.take j).drop i

/-- A single `editor.executeEdits` replacement: the range `[i, j)` is replaced
by `text`; the rest of the document is untouched. -/
def executeEditReplace (doc : List Char) (i j : Nat) (text : List Char) :
    List Char :=
  doc.take i ++ text ++ doc.drop j

/-- `applyWrap` from `Editor.tsx`: reads the selected text and replaces the
selection by `` `${prefix}${text}${suffix}` ``. -/
def applyWrap (doc : List Char) (i j : Nat) (pre suf : List Char) :
    List Char :=
  executeEditReplace doc i j (pre ++ getValueInRange doc i j ++ suf)

/-- The wrap-style toolbar/keybinding actions and their fixed wrapper pairs,
from the toolbar `onClick` handlers and `editor.addAction` keybindings in
`Editor.tsx`: bold, italic, underline, strikethrough, inline code, code
block, link, image. -/
def wrapActions : List (List Char × List Char) :=
  [("**".data, "**".data),
   ("*".data, "*".data),
   ("<u>".data, "</u>".data),
   ("~~".data, "~~".data),
   ("`".data, "`".data),
   ("```\n".data, "\n```".data),
   ("[".data, "](url)".data),
   ("![alt text](".data, ")".data)]

/-! ## Line-based toolbar operations (`Editor.tsx`)

Monaco line contents are `List Char` without line terminators. The JS regexes
over single lines are embedded as span/match functions; since markers and
digits are never whitespace, the greedy `\s*` group matches exactly the
maximal whitespace run, so the embeddings below are exact. -/

/-- The JavaScript `\s` character class (also what `String.prototype.trim`
removes). -/
def isJsWs (c : Char) : Bool :=
  c = ' ' || c = '\t' || c = '\n' || c = '\x0b' || c = '\x0c' || c = '\r' ||
  c = '\u00a0' || c = '\u1680' ||
  ('\u2000' ≤ c && c ≤ '\u200a') ||
  c = '\u2028' || c = '\u2029' || c = '\u202f' || c = '\u205f' ||
  c = '\u3000' || c = '\ufeff'

/-- JavaScript line terminators (what `.` in a regex does not match). -/
def isLineTermChar (c : Char) : Bool :=
  c = '\n' || c = '\r' || c = '\u2028' || c = '\u2029'

/-- A Monaco line content: it never contains line terminators, so `(.*)`
captures the whole remainder of the line. -/
def lineOk (l : List Char) : Bool :=
  l.all (fun c => !isLineTermChar c)

/-- `lineContent.trim()` is empty iff every character is `\s` whitespace. -/
def isBlankLine (l : List Char) : Bool :=
  l.all isJsWs

/-- The `(\s*)` leading-whitespace capture group. -/
def leadingWs (l : List Char) : List Char :=
  l.takeWhile isJsWs

/-- The remainder of a line after its leading whitespace (the `(.*)` capture
of `/^(\s*)(.*)/`). -/
def afterWs (l : List Char) : List Char :=
  l.dropWhile isJsWs

/-- Match of `/^(\s*)([-*+])\s(.*)/`: leading whitespace, the bullet marker
character, and the text after the marker and one whitespace character. -/
def matchBullet (l : List Char) : Option (List Char × Char × List Char) :=
  match afterWs l with
  | m :: s :: rest =>
      if (m = '-' || m = '*' || m = '+') && isJsWs s then
        some (leadingWs l, m, rest)
      else none
  | _ => none

/-- Match of `/^(\s*)\d+\.\s(.*)/`: leading whitespace and the text after the
`n.` marker and one whitespace character. -/
def matchOrdered (l : List Char) : Option (List Char × List Char) :=
  match (afterWs l).takeWhile Char.isDigit, (afterWs l).dropWhile Char.isDigit with
  | [], _ => none
  | _ :: _, '.' :: s :: rest =>
      if isJsWs s then some (leadingWs l, rest) else none
  | _ :: _, _ => none

/-- The marker-presence test used by `toggleList`, per mode (`ordered` picks
the regex, exactly as the ternary in the source). -/
def matchListLine (ordered : Bool) (l : List Char) :
    Option (List Char × List Char) :=
  if ordered then matchOrdered l
  else (matchBullet l).map (fun r => (r.1, r.2.2))

/-- The marker inserted when a line gains list formatting:
`` ordered ? `${counter}. ` : "- " ``. -/
def listMarker (ordered : Bool) (counter : Nat) : List Char :=
  if ordered then (toString counter).data ++ ". ".data else "- ".data

/-- One line of `toggleList`: blank lines are skipped; lines already carrying
the respective marker are stripped to `` `${match[1]}${match[2]}` ``; other
lines become `` `${leading}${marker}${text}` ``, incrementing the counter in
ordered mode. The returned pair is the rewritten line and the new counter. -/
def toggleListLine (ordered : Bool) (counter : Nat) (l : List Char) :
    List Char × Nat :=
  if isBlankLine l then (l, counter)
  else
    match matchListLine ordered l with
    | some (lead, rest) => (lead ++ rest, counter)
    | none =>
        (leadingWs l ++ listMarker ordered counter ++ afterWs l,
         if ordered then counter + 1 else counter)

/-- The per-line loop of `toggleList` over the selected lines, threading the
counter. -/
def toggleListGo (ordered : Bool) (counter : Nat) :
    List (List Char) → List (List Char)
  | [] => []
  | l :: ls =>
      (toggleListLine ordered counter l).1 ::
        toggleListGo ordered (toggleListLine ordered counter l).2 ls

/-- `toggleList` from `Editor.tsx`, applied to the selected line range: the
counter starts at `1`. -/
def toggleList (ordered : Bool) (lines : List (List Char)) :
    List (List Char) :=
  toggleListGo ordered 1 lines

/-- Whether `toggleList` converts a line (non-blank, not already carrying the
respective marker), i.e. whether the line gains a fresh marker. -/
def convertsLine (ordered : Bool) (l : List Char) : Bool :=
  !isBlankLine l && (matchListLine ordered l).isNone

/-- Number of lines converted by `toggleList` among the given lines. -/
def countConverted (ordered : Bool) (lines : List (List Char)) : Nat :=
  (lines.filter (convertsLine ordered)).length

/-- How much the `toggleList` counter grows over the given lines (it is only
incremented in ordered mode). -/
def counterGain (ordered : Bool) (lines : List (List Char)) : Nat :=
  if ordered then countConverted ordered lines else 0

/-- Match of `/^(\s*)([-*+])\s\[([ xX])\]\s(.*)/` from `toggleTaskList`:
leading whitespace, the marker character, the checkbox state character, and
the task text. -/
def matchTask (l : List Char) :
    Option (List Char × Char × Char × List Char) :=
  match afterWs l with
  | m :: s1 :: '[' :: st :: ']' :: s2 :: rest =>
      if (m = '-' || m = '*' || m = '+') && isJsWs s1 &&
          (st = ' ' || st = 'x' || st = 'X') && isJsWs s2 then
        some (leadingWs l, m, st, rest)
      else none
  | _ => none

/-- One line of `toggleTaskList`: a task item has its checkbox flipped
(checked iff `taskMatch[3].toLowerCase() === "x"`), a plain list item gains an
unchecked box, any other non-blank line becomes a fresh unchecked task item;
blank lines are skipped. -/
def toggleTaskLine (l : List Char) : List Char :=
  if isBlankLine l then l
  else
    match matchTask l with
    | some (lead, m, st, rest) =>
        lead ++ [m] ++ " [".data ++
          [if st.toLower = 'x' then ' ' else 'x'] ++ "] ".data ++ rest
    | none =>
        match matchBullet l with
        | some (lead, m, rest) => lead ++ [m] ++ " [ ] ".data ++ rest
        | none => leadingWs l ++ "- [ ] ".data ++ afterWs l

/-! ## Debounced change notification (`Editor.tsx` `onChangeHandler`) -/

/-- The debounce interval of `onChangeHandler`: `setTimeout(..., 300)`. -/
def debounceDelay : Nat := 300

/-- Operational model of `onChangeHandler`'s timer, processing the edits in
chronological order. The pending timer is `(deadline, value)`. Each edit
clears any pending timer (`clearTimeout`) — though if that timer's deadline
had already passed, it fired and delivered its value first — and schedules a
new timer for `time + 300` carrying the new value. A timer still pending
after the last edit fires at its deadline. The result is the list of
`(deliveryTime, deliveredValue)` invocations of `onDebouncedChange`. -/
def debounceAux (pending : Option (Nat × String)) :
    List (Nat × String) → List (Nat × String)
  | [] =>
      match pending with
      | some p => [p]
      | none => []
  | (t, v) :: rest =>
      match pending with
      | some (d, w) =>
          if d ≤ t then
            (d, w) :: debounceAux (some (t + debounceDelay, v)) rest
          else
            debounceAux (some (t + debounceDelay, v)) rest
      | none => debounceAux (some (t + debounceDelay, v)) rest

/-- The deliveries of `onDebouncedChange` produced by a chronological list of
`(time, value)` edits, starting with no timer pending. -/
def debounceDeliveries (edits : List (Nat × String)) : List (Nat × String) :=
  debounceAux none edits

end AkshaMd

namespace AkshaMd

/-! ## Claim theorems: view mode, theme, split ratio -/

/-- C3: the view mode is always exactly one of `"edit"`, `"preview"`,
`"split"`; the editing pane is rendered iff the mode is `"edit"` or
`"split"`; the preview pane is rendered iff the mode is `"preview"` or
`"split"`; split mode displays both panes and the other two modes display
exactly one pane. -/
theorem viewMode_panes (m : ViewMode) :
    (m = ViewMode.edit ∨ m = ViewMode.preview ∨ m = ViewMode.split) ∧
    (showEditorPane m = true ↔ (m = ViewMode.edit ∨ m = ViewMode.split)) ∧
    (showPreviewPane m = true ↔ (m = ViewMode.preview ∨ m = ViewMode.split)) ∧
    (paneCount ViewMode.split = 2) ∧
    (paneCount ViewMode.edit = 1) ∧
    (paneCount ViewMode.preview = 1) := by
  cases m <;> simp [showEditorPane, showPreviewPane, paneCount]

/-- C8: a `"light"` or `"dark"` preference resolves to itself; `"auto"`
resolves to the system preference (dark iff the media query matches), and to
`"light"` when there is no `window` or no `matchMedia`; the resolved theme is
always `"light"` or `"dark"`. The same holds for the inline resolver in
`MarkdownEditor.tsx` (which can only consult the media query when a `window`
exists). -/
theorem theme_resolution (env : BrowserEnv) :
    (useThemeResolved ThemeMode.light env = ResolvedTheme.light) ∧
    (useThemeResolved ThemeMode.dark env = ResolvedTheme.dark) ∧
    (useThemeResolved ThemeMode.auto env =
      if !env.hasWindow || !env.hasMatchMedia then ResolvedTheme.light
      else if env.mediaDarkMatches then ResolvedTheme.dark
      else ResolvedTheme.light) ∧
    (∀ t, useThemeResolved t env = ResolvedTheme.light ∨
          useThemeResolved t env = ResolvedTheme.dark) ∧
    (markdownEditorResolvedTheme ThemeMode.light env = ResolvedTheme.light) ∧
    (markdownEditorResolvedTheme ThemeMode.dark env = ResolvedTheme.dark) ∧
    (env.hasWindow = false →
      markdownEditorResolvedTheme ThemeMode.auto env = ResolvedTheme.light) ∧
    (env.hasWindow = true →
      markdownEditorResolvedTheme ThemeMode.auto env =
        if env.mediaDarkMatches then ResolvedTheme.dark
        else ResolvedTheme.light) ∧
    (∀ t, markdownEditorResolvedTheme t env = ResolvedTheme.light ∨
          markdownEditorResolvedTheme t env = ResolvedTheme.dark) := by
  obtain ⟨w, mm, dm⟩ := env
  refine ⟨rfl, rfl, rfl, ?_, rfl, rfl, ?_, ?_, ?_⟩
  · intro t
    cases t <;> cases w <;> cases mm <;> cases dm <;> simp [useThemeResolved, getSystemTheme]
  · intro h
    subst h
    rfl
  · intro h
    subst h
    rfl
  · intro t
    cases t <;> cases w <;> cases dm <;> simp [markdownEditorResolvedTheme]

/-- Witness for `theme_resolution` at a concrete environment: no window, so
`"auto"` resolves to `"light"` in the `MarkdownEditor` resolver. -/
theorem theme_resolution_witness :
    markdownEditorResolvedTheme ThemeMode.auto ⟨false, false, true⟩ =
      ResolvedTheme.light :=
  (theme_resolution ⟨false, false, true⟩).2.2.2.2.2.2.1 rfl

/-- C9: in every reachable state the split ratio lies in `[20, 80]`, so the
editor pane occupies between 20% and 80% of the container width and the
preview pane occupies the complement (the two widths sum to 100%). -/
theorem splitRatio_invariant (r : ℚ) (h : SplitRatioReachable r) :
    20 ≤ r ∧ r ≤ 80 ∧
    20 ≤ editorPaneWidth r ∧ editorPaneWidth r ≤ 80 ∧
    20 ≤ previewPaneWidth r ∧ previewPaneWidth r ≤ 80 ∧
    editorPaneWidth r + previewPaneWidth r = 100 := by
  induction h with
  | init =>
      refine ⟨by norm_num [initialSplitRatio], by norm_num [initialSplitRatio], ?_, ?_, ?_, ?_, ?_⟩ <;>
        norm_num [initialSplitRatio, editorPaneWidth, previewPaneWidth]
  | step r q _ ih =>
      unfold splitRatioStep
      by_cases hq : 20 ≤ q ∧ q ≤ 80
      · simp only [hq, if_true]
        refine ⟨hq.1, hq.2, hq.1, hq.2, ?_, ?_, ?_⟩ <;>
          simp [editorPaneWidth, previewPaneWidth] <;> linarith [hq.1, hq.2]
      · simpa [hq] using ih

/-- Witness for `splitRatio_invariant` at the initial state. -/
theorem splitRatio_invariant_witness :
    20 ≤ initialSplitRatio ∧ initialSplitRatio ≤ 80 ∧
    20 ≤ editorPaneWidth initialSplitRatio ∧
    editorPaneWidth initialSplitRatio ≤ 80 ∧
    20 ≤ previewPaneWidth initialSplitRatio ∧
    previewPaneWidth initialSplitRatio ≤ 80 ∧
    editorPaneWidth initialSplitRatio + previewPaneWidth initialSplitRatio = 100 :=
  splitRatio_invariant initialSplitRatio SplitRatioReachable.init

/-! ## Claim theorems: controlled/uncontrolled value -/

/-- C1: when the `value` prop is a string (controlled), the displayed text
equals it and `handleChange` never modifies the internal state; when it is
undefined (uncontrolled), the displayed text is the internal state, which is
initialised from `defaultValue` and updated to the new text on every change;
in both modes a supplied `onChange` is invoked with exactly the new text. -/
theorem markdownEditor_value_state (p : MarkdownEditorProps)
    (s : MarkdownEditorState) (next : String) :
    (∀ v, p.value = some v →
      isControlled p = true ∧
      currentValue p s = v ∧
      (handleChange p s next).1 = s) ∧
    (p.value = none →
      isControlled p = false ∧
      currentValue p s = s.internalValue ∧
      (initMarkdownEditorState p).internalValue = p.defaultValue ∧
      (handleChange p s next).1.internalValue = next) ∧
    (p.hasOnChange = true → (handleChange p s next).2 = [next]) ∧
    (p.hasOnChange = false → (handleChange p s next).2 = []) := by
  refine ⟨?_, ?_, ?_, ?_⟩
  · intro v hv
    refine ⟨by simp [isControlled, hv], by simp [currentValue, hv], ?_⟩
    simp [handleChange, isControlled, hv]
  · intro hv
    refine ⟨by simp [isControlled, hv], by simp [currentValue, hv], rfl, ?_⟩
    simp [handleChange, isControlled, hv]
  · intro h
    simp [handleChange, h]
  · intro h
    simp [handleChange, h]

/-- Witness for `markdownEditor_value_state`: one controlled and one
uncontrolled instantiation at concrete props. -/
theorem markdownEditor_value_state_witness :
    (currentValue ⟨some "app", "dflt", true⟩ ⟨"internal"⟩ = "app" ∧
     (handleChange ⟨some "app", "dflt", true⟩ ⟨"internal"⟩ "typed").1 = ⟨"internal"⟩) ∧
    ((handleChange ⟨none, "dflt", true⟩ ⟨"internal"⟩ "typed").1.internalValue = "typed" ∧
     (handleChange ⟨none, "dflt", true⟩ ⟨"internal"⟩ "typed").2 = ["typed"]) := by
  have hc := markdownEditor_value_state ⟨some "app", "dflt", true⟩ ⟨"internal"⟩ "typed"
  have hu := markdownEditor_value_state ⟨none, "dflt", true⟩ ⟨"internal"⟩ "typed"
  exact ⟨⟨(hc.1 "app" rfl).2.1, (hc.1 "app" rfl).2.2⟩,
         ⟨(hu.2.1 rfl).2.2.2, hu.2.2.1 rfl⟩⟩

/-! ## Claim theorems: preview pipeline -/

/-- Bind of a successful `Except` computation (helper). -/
theorem exceptOk_bind {e a b : Type} (x : a) (f : a → Except e b) :
    (Except.ok x : Except e a) >>= f = f x := rfl

/-- C2: for every non-empty input on which all stages succeed, the preview's
html is the string output of the fixed pipeline applied in exactly this
order: markdown parse (`remark-parse`), GFM extensions (`remark-gfm`), math
(`remark-math`, with its KaTeX rendering stage `rehype-katex` after the HTML
conversion), conversion to HTML (`remark-rehype`), syntax highlighting
(`rehype-highlight`), serialization to a string (`rehype-stringify`). The
nesting of the hypotheses fixes the order of the stages. -/
theorem preview_pipeline_order {M H : Type} (P : UnifiedPipeline M H)
    (content : String) (hne : content ≠ "")
    (m1 : M) (h1 : P.remarkParse content = Except.ok m1)
    (m2 : M) (h2 : P.remarkGfm m1 = Except.ok m2)
    (m3 : M) (h3 : P.remarkMath m2 = Except.ok m3)
    (t1 : H) (h4 : P.remarkRehype m3 = Except.ok t1)
    (t2 : H) (h5 : P.rehypeKatex t1 = Except.ok t2)
    (t3 : H) (h6 : P.rehypeHighlight t2 = Except.ok t3)
    (out : String) (h7 : P.rehypeStringify t3 = Except.ok out) :
    previewRender P content = ⟨out, false⟩ ∧
    runUnified P content = Except.ok out := by
  have hrun : runUnified P content = Except.ok out := by
    unfold runUnified
    rw [h1, exceptOk_bind, h2, exceptOk_bind, h3, exceptOk_bind, h4,
      exceptOk_bind, h5, exceptOk_bind, h6, exceptOk_bind, h7]
  refine ⟨?_, hrun⟩
  simp [previewRender, hne, hrun]

/-- Witness for `preview_pipeline_order`: a concrete pipeline over `Nat`
documents whose stages all succeed. -/
theorem preview_pipeline_order_witness :
    previewRender
      (⟨fun s => Except.ok s.length, fun n => Except.ok (n + 1),
        fun n => Except.ok (n + 2), fun n => Except.ok (n * 2),
        fun n => Except.ok (n + 3), fun n => Except.ok (n + 4),
        fun n => Except.ok (toString n)⟩ : UnifiedPipeline Nat Nat)
      "ab" = ⟨"17", false⟩ :=
  (preview_pipeline_order
    (⟨fun s => Except.ok s.length, fun n => Except.ok (n + 1),
      fun n => Except.ok (n + 2), fun n => Except.ok (n * 2),
      fun n => Except.ok (n + 3), fun n => Except.ok (n + 4),
      fun n => Except.ok (toString n)⟩ : UnifiedPipeline Nat Nat)
    "ab" (by decide) 2 rfl 3 rfl 5 rfl 10 rfl 13 rfl 17 rfl "17" rfl).1

/-- C4: on non-empty input a render attempt has exactly two outcomes: the
pipeline succeeds and the html is its string output, or the pipeline throws
and the html is the error-message div containing the stringified error. In
both cases processing stops (`isProcessing` is `false`) and no exception
propagates (`previewRender` is total). -/
theorem preview_error_handling {M H : Type} (P : UnifiedPipeline M H)
    (content : String) (hne : content ≠ "") :
    (∃ s, runUnified P content = Except.ok s ∧
          previewRender P content = ⟨s, false⟩) ∨
    (∃ e, runUnified P content = Except.error e ∧
          previewRender P content = ⟨previewErrorHtml e, false⟩) := by
  cases hrun : runUnified P content with
  | ok s => exact Or.inl ⟨s, rfl, by simp [previewRender, hne, hrun]⟩
  | error e => exact Or.inr ⟨e, rfl, by simp [previewRender, hne, hrun]⟩

/-- Witness for `preview_error_handling`: a pipeline whose parse stage throws,
so the rendered html is the error div. -/
theorem preview_error_handling_witness :
    (∃ s, runUnified
        (⟨fun _ => Except.error "boom", fun n => Except.ok n,
          fun n => Except.ok n, fun n => Except.ok n, fun n => Except.ok n,
          fun n => Except.ok n, fun n => Except.ok (toString n)⟩ :
          UnifiedPipeline Nat Nat) "x" = Except.ok s ∧
      previewRender
        (⟨fun _ => Except.error "boom", fun n => Except.ok n,
          fun n => Except.ok n, fun n => Except.ok n, fun n => Except.ok n,
          fun n => Except.ok n, fun n => Except.ok (toString n)⟩ :
          UnifiedPipeline Nat Nat) "x" = ⟨s, false⟩) ∨
    (∃ e, runUnified
        (⟨fun _ => Except.error "boom", fun n => Except.ok n,
          fun n => Except.ok n, fun n => Except.ok n, fun n => Except.ok n,
          fun n => Except.ok n, fun n => Except.ok (toString n)⟩ :
          UnifiedPipeline Nat Nat) "x" = Except.error e ∧
      previewRender
        (⟨fun _ => Except.error "boom", fun n => Except.ok n,
          fun n => Except.ok n, fun n => Except.ok n, fun n => Except.ok n,
          fun n => Except.ok n, fun n => Except.ok (toString n)⟩ :
          UnifiedPipeline Nat Nat) "x" = ⟨previewErrorHtml e, false⟩) :=
  preview_error_handling _ "x" (by decide)

/-! ## Claim theorems: wrap-style toolbar actions -/

/-- Splitting a document at a selection (helper): the document is the
concatenation of the text before the selection, the selected text, and the
text after the selection. -/
theorem doc_split_at_selection (doc : List Char) (i j : Nat) (hij : i ≤ j) :
    doc = doc.take i ++ getValueInRange doc i j ++ doc.drop j := by
  have h1 : (doc.take j).take i = doc.take i := by
    rw [List.take_take, Nat.min_eq_left hij]
  rw [getValueInRange, ← h1, List.take_append_drop, List.take_append_drop]

/-- C5: for every wrap-style action (bold, italic, underline, strikethrough,
inline code, code block, link, image) with wrapper pair `(pre, suf)` and
every selection `[i, j)`, `applyWrap` replaces the selection by
`pre ++ selected ++ suf`: text before offset `i` and after offset `j` is
unchanged, and an empty selection receives the insertion `pre ++ suf` at the
cursor. -/
theorem applyWrap_spec (pre suf : List Char)
    (hact : (pre, suf) ∈ wrapActions)
    (doc : List Char) (i j : Nat) (hij : i ≤ j) (hj : j ≤ doc.length) :
    applyWrap doc i j pre suf
      = doc.take i ++ pre ++ getValueInRange doc i j ++ suf ++ doc.drop j ∧
    (applyWrap doc i j pre suf).take i = doc.take i ∧
    (applyWrap doc i j pre suf).drop (i + pre.length + (j - i) + suf.length)
      = doc.drop j ∧
    doc = doc.take i ++ getValueInRange doc i j ++ doc.drop j ∧
    (i = j →
      applyWrap doc i j pre suf = doc.take i ++ pre ++ suf ++ doc.drop i) := by
  have hi : i ≤ doc.length := le_trans hij hj
  have hleni : (doc.take i).length = i := by
    rw [List.length_take, Nat.min_eq_left hi]
  have hlensel : (getValueInRange doc i j).length = j - i := by
    rw [getValueInRange, List.length_drop, List.length_take,
      Nat.min_eq_left hj]
  have heq : applyWrap doc i j pre suf
      = doc.take i ++ pre ++ getValueInRange doc i j ++ suf ++ doc.drop j := by
    simp [applyWrap, executeEditReplace, List.append_assoc]
  refine ⟨heq, ?_, ?_, doc_split_at_selection doc i j hij, ?_⟩
  · rw [heq]
    rw [List.append_assoc, List.append_assoc, List.append_assoc]
    rw [List.take_append_eq_append_take, hleni, Nat.sub_self,
      List.take_zero, List.append_nil, List.take_take, Nat.min_self]
  · rw [heq]
    have hgrp : doc.take i ++ pre ++ getValueInRange doc i j ++ suf ++ doc.drop j
        = (doc.take i ++ pre ++ getValueInRange doc i j ++ suf) ++ doc.drop j := by
      simp [List.append_assoc]
    rw [hgrp]
    have hlen : (doc.take i ++ pre ++ getValueInRange doc i j ++ suf).length
        = i + pre.length + (j - i) + suf.length := by
      simp [List.length_append, hleni, hlensel] <;> omega
    rw [← hlen, List.drop_left]
  · intro hieqj
    subst hieqj
    have hsel : getValueInRange doc i i = [] := by
      rw [getValueInRange, List.drop_eq_nil_iff, List.length_take]
      exact Nat.min_le_left i doc.length
    rw [heq, hsel]
    simp
/-- Witness for `applyWrap_spec`: the bold action on `"hello"` with the
selection `[1, 3)` produces `"h**el**lo"`, and the pieces outside the
selection are preserved. -/
theorem applyWrap_spec_witness :
    applyWrap "hello".data 1 3 "**".data "**".data = "h**el**lo".data ∧
    (applyWrap "hello".data 1 3 "**".data "**".data).take 1
      = "hello".data.take 1 ∧
    applyWrap "hello".data 2 2 "**".data "**".data = "he****llo".data := by
  have h1 := applyWrap_spec "**".data "**".data (by decide) "hello".data 1 3
    (by decide) (by decide)
  have h2 := applyWrap_spec "**".data "**".data (by decide) "hello".data 2 2
    (by decide) (by decide)
  refine ⟨?_, h1.2.1, ?_⟩
  · rw [h1.1]
    decide
  · rw [h2.2.2.2.2 rfl]
    decide

/-! ## Claim theorems: debounced propagation -/

/-- Structure of the deliveries produced by `debounceAux` (helper): a
delivery either is the inherited pending timer — in which case every
remaining edit is at or after its deadline — or stems from an edit in the
list, 300 ms before the delivery, with no other edit strictly between that
edit and the delivery. -/
theorem debounceAux_mem (edits : List (Nat × String)) :
    ∀ (pending : Option (Nat × String)) (p : Nat × String),
      List.Pairwise (fun a b => a.1 < b.1) edits →
      p ∈ debounceAux pending edits →
      (pending = some p ∧ ∀ q ∈ edits, p.1 ≤ q.1) ∨
      ((p.1 - debounceDelay, p.2) ∈ edits ∧ debounceDelay ≤ p.1 ∧
        ∀ q ∈ edits, q.1 < p.1 → q.1 ≤ p.1 - debounceDelay) := by
  induction edits with
  | nil =>
      intro pending p _ hp
      left
      cases pending with
      | none => simp [debounceAux] at hp
      | some pr =>
          simp [debounceAux] at hp
          exact ⟨by rw [hp], by simp⟩
  | cons e rest ih =>
      intro pending p hsort hp
      obtain ⟨t, v⟩ := e
      rw [List.pairwise_cons] at hsort
      obtain ⟨hlt, hsrest⟩ := hsort
      have htail : p ∈ debounceAux (some (t + debounceDelay, v)) rest →
          ((p.1 - debounceDelay, p.2) ∈ (t, v) :: rest ∧
            debounceDelay ≤ p.1 ∧
            ∀ q ∈ (t, v) :: rest, q.1 < p.1 → q.1 ≤ p.1 - debounceDelay) := by
        intro hptail
        rcases ih (some (t + debounceDelay, v)) p hsrest hptail with
          ⟨heq, hall⟩ | ⟨hmem, hge, hsep⟩
        · have hpe : p = (t + debounceDelay, v) := (Option.some.inj heq).symm
          subst hpe
          refine ⟨by simp, by simp, ?_⟩
          intro q hq hqlt
          rcases List.mem_cons.mp hq with hq1 | hq2
          · subst hq1
            simp
          · exact absurd hqlt (not_lt.mpr (hall q hq2))
        · refine ⟨List.mem_cons_of_mem _ hmem, hge, ?_⟩
          intro q hq hqlt
          rcases List.mem_cons.mp hq with hq1 | hq2
          · subst hq1
            have := hlt _ hmem
            simp only at this
            omega
          · exact hsep q hq2 hqlt
      cases pending with
      | none =>
          simp only [debounceAux] at hp
          exact Or.inr (htail hp)
      | some pr =>
          obtain ⟨d, w⟩ := pr
          by_cases hdt : d ≤ t
          · simp only [debounceAux, hdt, if_true] at hp
            rcases List.mem_cons.mp hp with hp1 | hp2
            · subst hp1
              left
              refine ⟨rfl, ?_⟩
              intro q hq
              rcases List.mem_cons.mp hq with hq1 | hq2
              · subst hq1
                exact hdt
              · have := hlt _ hq2
                simp only at this
                omega
            · exact Or.inr (htail hp2)
          · simp only [debounceAux, hdt, if_false] at hp
            exact Or.inr (htail hp)

/-- C7: every delivery of the debounced notification stems from an edit made
exactly 300 ms earlier whose value it carries, and no other edit falls
strictly between that edit and the delivery: the notification fires only
after the input pauses for the full debounce interval and always carries the
most recent value — a pending notification made stale by a newer edit is
cancelled and never delivered. -/
theorem debounce_no_stale_delivery (edits : List (Nat × String))
    (hsort : List.Pairwise (fun a b => a.1 < b.1) edits) :
    ∀ p ∈ debounceDeliveries edits,
      debounceDelay ≤ p.1 ∧
      (p.1 - debounceDelay, p.2) ∈ edits ∧
      ∀ q ∈ edits, q.1 < p.1 → q.1 ≤ p.1 - debounceDelay := by
  intro p hp
  rcases debounceAux_mem edits none p hsort hp with ⟨heq, _⟩ | ⟨hmem, hge, hsep⟩
  · exact absurd heq (by simp)
  · exact ⟨hge, hmem, hsep⟩

/-- Witness for `debounce_no_stale_delivery`: edits at 0, 100 and 500 ms —
the value `"a"` of the first edit is overwritten within 300 ms and never
delivered; `"b"` is delivered at 400 ms and `"c"` at 800 ms. -/
theorem debounce_no_stale_delivery_witness :
    debounceDeliveries [(0, "a"), (100, "b"), (500, "c")]
      = [(400, "b"), (800, "c")] ∧
    debounceDelay ≤ 400 ∧
    (400 - debounceDelay, "b") ∈ [(0, "a"), (100, "b"), (500, "c")] ∧
    ∀ q ∈ [((0 : Nat), "a"), (100, "b"), (500, "c")],
      q.1 < 400 → q.1 ≤ 400 - debounceDelay := by
  have h := debounce_no_stale_delivery [(0, "a"), (100, "b"), (500, "c")]
    (by decide) (400, "b") (by decide)
  exact ⟨by decide, h.1, h.2.1, h.2.2⟩

/-! ## Claim theorems: line-based list toggles -/

/-- `takeWhile` over a concatenation whose first part satisfies the predicate
everywhere (helper). -/
theorem takeWhile_append_all (p : Char → Bool) (l1 l2 : List Char)
    (h : l1.all p = true) :
    (l1 ++ l2).takeWhile p = l1 ++ l2.takeWhile p := by
  induction l1 with
  | nil => simp
  | cons a as ih =>
      simp only [List.all_cons, Bool.and_eq_true] at h
      simp [List.takeWhile_cons, h.1, ih h.2]

/-- `dropWhile` over a concatenation whose first part satisfies the predicate
everywhere (helper). -/
theorem dropWhile_append_all (p : Char → Bool) (l1 l2 : List Char)
    (h : l1.all p = true) :
    (l1 ++ l2).dropWhile p = l2.dropWhile p := by
  induction l1 with
  | nil => simp
  | cons a as ih =>
      simp only [List.all_cons, Bool.and_eq_true] at h
      simp [List.dropWhile_cons, h.1, ih h.2]

/-- The whitespace split of a line that is whitespace, then a non-whitespace
character, then a remainder (helper). -/
theorem ws_split (ws : List Char) (m : Char) (rest : List Char)
    (hws : ws.all isJsWs = true) (hm : isJsWs m = false) :
    leadingWs (ws ++ m :: rest) = ws ∧ afterWs (ws ++ m :: rest) = m :: rest := by
  constructor
  · rw [leadingWs, takeWhile_append_all isJsWs ws (m :: rest) hws,
      List.takeWhile_cons, hm]
    simp
  · rw [afterWs, dropWhile_append_all isJsWs ws (m :: rest) hws,
      List.dropWhile_cons, hm]
    simp

/-- A line containing a non-whitespace character is not blank (helper). -/
theorem isBlankLine_false_of_mid (ws : List Char) (m : Char) (rest : List Char)
    (hm : isJsWs m = false) :
    isBlankLine (ws ++ m :: rest) = false := by
  simp [isBlankLine, List.all_append, List.all_cons, hm]

/-- A blank line matches neither list marker regex (helper): its `\s*` prefix
swallows the whole line, leaving nothing for the marker. -/
theorem matchListLine_of_blank (ordered : Bool) (l : List Char)
    (h : isBlankLine l = true) :
    matchListLine ordered l = none := by
  have hafter : afterWs l = [] := by
    rw [afterWs, List.dropWhile_eq_nil_iff]
    intro x hx
    exact List.all_eq_true.mp h x hx
  cases ordered with
  | true => simp [matchListLine, matchOrdered, hafter]
  | false => simp [matchListLine, matchBullet, hafter]

/-- The leading-whitespace component of a bullet match is the line's leading
whitespace (helper). -/
theorem matchBullet_lead (l : List Char) (lead : List Char) (m : Char)
    (rest : List Char) (h : matchBullet l = some (lead, m, rest)) :
    lead = leadingWs l := by
  unfold matchBullet at h
  split at h
  · split at h
    · simp only [Option.some.injEq, Prod.mk.injEq] at h
      exact h.1.symm
    · exact absurd h (by simp)
  · exact absurd h (by simp)

/-- The leading-whitespace component of an ordered match is the line's
leading whitespace (helper). -/
theorem matchOrdered_lead (l : List Char) (lead rest : List Char)
    (h : matchOrdered l = some (lead, rest)) :
    lead = leadingWs l := by
  unfold matchOrdered at h
  split at h
  · exact absurd h (by simp)
  · split at h
    · simp only [Option.some.injEq, Prod.mk.injEq] at h
      exact h.1.symm
    · exact absurd h (by simp)
  · exact absurd h (by simp)

/-- The leading-whitespace component of either marker match is the line's
leading whitespace (helper). -/
theorem matchListLine_lead (ordered : Bool) (l : List Char)
    (lead rest : List Char)
    (h : matchListLine ordered l = some (lead, rest)) :
    lead = leadingWs l := by
  cases ordered with
  | true => exact matchOrdered_lead l lead rest (by simpa [matchListLine] using h)
  | false =>
      rw [matchListLine] at h
      simp only [Bool.false_eq_true, if_false, Option.map_eq_some'] at h
      obtain ⟨⟨le, me, re⟩, hb, hpr⟩ := h
      simp only [Prod.mk.injEq] at hpr
      rw [← hpr.1]
      exact matchBullet_lead l le me re hb

/-- The counter returned by one `toggleList` line step (helper): it grows by
the line's conversion contribution. -/
theorem toggleListLine_snd (ordered : Bool) (counter : Nat) (l : List Char) :
    (toggleListLine ordered counter l).2
      = counter + counterGain ordered [l] := by
  unfold toggleListLine counterGain countConverted convertsLine
  by_cases hb : isBlankLine l
  · simp [hb, List.filter]
  · cases hmatch : matchListLine ordered l with
    | some r =>
        obtain ⟨lead, rest⟩ := r
        cases ordered <;> simp [hb, hmatch, List.filter]
    | none => cases ordered <;> simp [hb, hmatch, List.filter]

/-- `counterGain` distributes over `cons` (helper). -/
theorem counterGain_cons (ordered : Bool) (l : List Char)
    (ls : List (List Char)) :
    counterGain ordered (l :: ls)
      = counterGain ordered [l] + counterGain ordered ls := by
  cases ordered <;>
    simp [counterGain, countConverted, List.filter_cons, List.filter] <;>
    by_cases h : convertsLine true l <;> simp [h] <;> omega

/-- `toggleList` preserves the number of lines (helper). -/
theorem toggleListGo_length (ordered : Bool) :
    ∀ (c : Nat) (lines : List (List Char)),
      (toggleListGo ordered c lines).length = lines.length := by
  intro c lines
  induction lines generalizing c with
  | nil => rfl
  | cons l ls ih => simp [toggleListGo, ih]

/-- A blank line is returned unchanged by the `toggleList` line step
(helper). -/
theorem toggleListLine_fst_blank (ordered : Bool) (c : Nat) (l : List Char)
    (h : isBlankLine l = true) :
    (toggleListLine ordered c l).1 = l := by
  unfold toggleListLine
  rw [h]
  simp

/-- A line already carrying the respective marker is stripped by the
`toggleList` line step (helper). -/
theorem toggleListLine_fst_match (ordered : Bool) (c : Nat) (l : List Char)
    (lead rest : List Char)
    (hb : isBlankLine l = false)
    (hm : matchListLine ordered l = some (lead, rest)) :
    (toggleListLine ordered c l).1 = lead ++ rest := by
  unfold toggleListLine
  rw [hb, hm]
  simp

/-- Any other non-blank line gains a marker after its leading whitespace in
the `toggleList` line step (helper). -/
theorem toggleListLine_fst_new (ordered : Bool) (c : Nat) (l : List Char)
    (hb : isBlankLine l = false)
    (hm : matchListLine ordered l = none) :
    (toggleListLine ordered c l).1
      = leadingWs l ++ listMarker ordered c ++ afterWs l := by
  unfold toggleListLine
  rw [hb, hm]
  simp

/-- Unordered line rewrites ignore the counter (helper): the inserted marker
is the constant `"- "`. -/
theorem toggleListLine_fst_false (c c' : Nat) (l : List Char) :
    (toggleListLine false c l).1 = (toggleListLine false c' l).1 := by
  unfold toggleListLine
  by_cases hb : isBlankLine l
  · simp [hb]
  · cases hmatch : matchListLine false l with
    | some r => simp [hb, hmatch]
    | none => simp [hb, hmatch, listMarker]

/-- The `i`-th output line of the `toggleList` loop (helper): it is the line
step applied with the counter grown by the conversions among the earlier
lines. -/
theorem toggleListGo_getD (ordered : Bool) :
    ∀ (lines : List (List Char)) (c i : Nat), i < lines.length →
      (toggleListGo ordered c lines).getD i []
        = (toggleListLine ordered
            (c + counterGain ordered (lines.take i)) (lines.getD i [])).1 := by
  intro lines
  induction lines with
  | nil =>
      intro c i hi
      simp at hi
  | cons l ls ih =>
      intro c i hi
      cases i with
      | zero =>
          simp [toggleListGo, counterGain, countConverted]
      | succ n =>
          have hn : n < ls.length := by
            simpa using Nat.lt_of_succ_lt_succ hi
          have hstep : toggleListGo ordered c (l :: ls)
              = (toggleListLine ordered c l).1 ::
                toggleListGo ordered ((toggleListLine ordered c l).2) ls := rfl
          rw [hstep, List.getD_cons_succ, List.getD_cons_succ,
            ih ((toggleListLine ordered c l).2) n hn, toggleListLine_snd,
            show ((l :: ls).take (n + 1)) = l :: ls.take n from rfl]
          have harith : c + counterGain ordered [l] + counterGain ordered (ls.take n)
              = c + counterGain ordered (l :: ls.take n) := by
            rw [counterGain_cons ordered l (ls.take n)]
            omega
          rw [harith]

/-- C6: `toggleList` rewrites each selected line independently, preserving
the number of lines: a blank (whitespace-only) line is unchanged; a line
already carrying the respective marker keeps its leading whitespace and
content and loses the marker; every other non-blank line gains a marker after
its leading whitespace — the constant `"- "` in unordered mode, and `"k. "`
in ordered mode where `k` counts `1, 2, ...` over the lines converted in this
invocation. -/
theorem toggleList_lines (ordered : Bool) (lines : List (List Char))
    (hok : lines.all lineOk = true) :
    (toggleList ordered lines).length = lines.length ∧
    ∀ i, i < lines.length →
      (isBlankLine (lines.getD i []) = true →
        (toggleList ordered lines).getD i [] = lines.getD i []) ∧
      (∀ lead rest,
        matchListLine ordered (lines.getD i []) = some (lead, rest) →
        lead = leadingWs (lines.getD i []) ∧
        (toggleList ordered lines).getD i [] = lead ++ rest) ∧
      (isBlankLine (lines.getD i []) = false →
        matchListLine ordered (lines.getD i []) = none →
        (toggleList ordered lines).getD i []
          = leadingWs (lines.getD i []) ++
            listMarker ordered (1 + countConverted ordered (lines.take i)) ++
            afterWs (lines.getD i [])) ∧
      listMarker false (1 + countConverted false (lines.take i)) = "- ".data ∧
      (∀ k : Nat, listMarker true k = (toString k).data ++ ". ".data) := by
  refine ⟨toggleListGo_length ordered 1 lines, ?_⟩
  intro i hi
  have hcore := toggleListGo_getD ordered lines 1 i hi
  refine ⟨?_, ?_, ?_, rfl, fun k => rfl⟩
  · intro hblank
    rw [toggleList, hcore]
    exact toggleListLine_fst_blank ordered _ _ hblank
  · intro lead rest hmatch
    refine ⟨matchListLine_lead ordered _ lead rest hmatch, ?_⟩
    have hblank : isBlankLine (lines.getD i []) = false := by
      by_contra hb
      rw [matchListLine_of_blank ordered _ (by simpa using hb)] at hmatch
      exact absurd hmatch (by simp)
    rw [toggleList, hcore]
    exact toggleListLine_fst_match ordered _ _ lead rest hblank hmatch
  · intro hblank hnone
    rw [toggleList, hcore]
    rw [toggleListLine_fst_new ordered _ _ hblank hnone]
    cases ordered with
    | true => rfl
    | false => rfl

/-- Witness for `toggleList_lines`: toggling an ordered list over four lines
leaves the blank line alone, strips the existing `1.` item, and numbers the
two converted lines `1.` and `2.`. -/
theorem toggleList_lines_witness :
    toggleList true ["alpha".data, "  ".data, "1. beta".data, "gamma".data]
      = ["1. alpha".data, "  ".data, "beta".data, "2. gamma".data] ∧
    (toggleList true ["alpha".data, "  ".data, "1. beta".data, "gamma".data]).getD 3 []
      = leadingWs "gamma".data ++
        listMarker true (1 + countConverted true
          (["alpha".data, "  ".data, "1. beta".data, "gamma".data].take 3)) ++
        afterWs "gamma".data := by
  have h := toggleList_lines true
    ["alpha".data, "  ".data, "1. beta".data, "gamma".data] (by decide)
  exact ⟨by decide, (h.2 3 (by decide)).2.2.1 (by decide) (by decide)⟩

/-- One application of `toggleTaskLine` on a canonical task line flips the
checkbox state (helper). -/
theorem toggleTaskLine_flip (indent : List Char) (m st : Char)
    (text : List Char)
    (hind : indent.all isJsWs = true)
    (hm : m = '-' ∨ m = '*' ∨ m = '+')
    (hst : st = ' ' ∨ st = 'x') :
    toggleTaskLine (indent ++ [m] ++ " [".data ++ [st] ++ "] ".data ++ text)
      = indent ++ [m] ++ " [".data ++ [if st = ' ' then 'x' else ' '] ++
        "] ".data ++ text := by
  have hmws : isJsWs m = false := by
    rcases hm with h | h | h <;> subst h <;> decide
  have hline : indent ++ [m] ++ " [".data ++ [st] ++ "] ".data ++ text
      = indent ++ m :: ' ' :: '[' :: st :: ']' :: ' ' :: text := by
    simp [List.append_assoc]
  have hsplit := ws_split indent m (' ' :: '[' :: st :: ']' :: ' ' :: text)
    hind hmws
  have hblank : isBlankLine
      (indent ++ m :: ' ' :: '[' :: st :: ']' :: ' ' :: text) = false :=
    isBlankLine_false_of_mid indent m _ hmws
  have hcond : ((m = '-' || m = '*' || m = '+') && isJsWs ' ' &&
      (st = ' ' || st = 'x' || st = 'X') && isJsWs ' ') = true := by
    rcases hm with h | h | h <;> subst h <;>
      rcases hst with h' | h' <;> subst h' <;> decide
  have hmatch : matchTask
      (indent ++ m :: ' ' :: '[' :: st :: ']' :: ' ' :: text)
      = some (indent, m, st, text) := by
    unfold matchTask
    rw [hsplit.2, hsplit.1]
    simp [hcond]
  rw [hline, toggleTaskLine, hblank]
  simp only [Bool.false_eq_true, if_false]
  rw [hmatch]
  have hflip : (if Char.toLower st = 'x' then ' ' else 'x')
      = (if st = ' ' then 'x' else ' ') := by
    rcases hst with h | h <;> subst h <;> decide
  simp [hflip, List.append_assoc]

/-- C10: on a line of the form `indent ++ marker ++ " [" ++ s ++ "] " ++ text`
with `marker ∈ {-, *, +}` and `s ∈ {" ", "x"}`, one application of the
task-list toggle flips `s` between `" "` and `"x"` while preserving the
indentation, marker and text, and two applications restore the line
exactly. -/
theorem toggleTaskList_involution (indent : List Char) (m st : Char)
    (text : List Char)
    (hind : indent.all isJsWs = true)
    (hm : m = '-' ∨ m = '*' ∨ m = '+')
    (hst : st = ' ' ∨ st = 'x')
    (htext : lineOk text = true) :
    toggleTaskLine (indent ++ [m] ++ " [".data ++ [st] ++ "] ".data ++ text)
      = indent ++ [m] ++ " [".data ++ [if st = ' ' then 'x' else ' '] ++
        "] ".data ++ text ∧
    toggleTaskLine (toggleTaskLine
        (indent ++ [m] ++ " [".data ++ [st] ++ "] ".data ++ text))
      = indent ++ [m] ++ " [".data ++ [st] ++ "] ".data ++ text := by
  refine ⟨toggleTaskLine_flip indent m st text hind hm hst, ?_⟩
  rw [toggleTaskLine_flip indent m st text hind hm hst,
    toggleTaskLine_flip indent m (if st = ' ' then 'x' else ' ') text hind hm
      (by rcases hst with h | h <;> subst h <;> simp)]
  have hdouble : (if (if st = ' ' then 'x' else ' ') = ' ' then 'x' else ' ')
      = st := by
    rcases hst with h | h <;> subst h <;> decide
  rw [hdouble]

/-- Witness for `toggleTaskList_involution`: toggling `"  - [ ] task"` yields
`"  - [x] task"`, and toggling twice restores the original line. -/
theorem toggleTaskList_involution_witness :
    toggleTaskLine "  - [ ] task".data = "  - [x] task".data ∧
    toggleTaskLine (toggleTaskLine "  - [ ] task".data)
      = "  - [ ] task".data := by
  have h := toggleTaskList_involution "  ".data '-' ' ' "task".data
    (by decide) (Or.inl rfl) (Or.inl rfl) (by decide)
  constructor
  · have h1 := h.1
    rw [show "  ".data ++ ['-'] ++ " [".data ++ [' '] ++ "] ".data ++ "task".data
        = "  - [ ] task".data from by decide] at h1
    rw [h1]
    decide
  · have h2 := h.2
    rw [show "  ".data ++ ['-'] ++ " [".data ++ [' '] ++ "] ".data ++ "task".data
        = "  - [ ] task".data from by decide] at h2
    rw [h2]

end AkshaMd
